import Mathlib

/-!
Verification of the live-news streaming loop (src/next.py) against its
natural-language specification.  The data model and operations are shallowly
embedded: bitmaps become functions from pixel coordinates to pixel values,
the wall clock becomes an explicit rational-valued elapsed time, the encoder
subprocess becomes an event trace, and Python floats are given exact rational
semantics.  Definitions come first, then the theorems.
-/

namespace LiveNews

/-! ## Configuration constants (src/next.py lines 36-51) -/

def WIDTH : ℕ := 1920

def HEIGHT : ℕ := 1080

def FPS : ℕ := 24

def TICKER_HEIGHT : ℕ := 90

def TICKER_SPEED_PX_PER_SEC : ℕ := 160

def TICKER_GAP : ℕ := 140

/-- Literal 0.02 in the sleep call at src/next.py line 201, as an exact rational. -/
def SLEEP_CAP : ℚ := 1 / 50

/-! ## Pixels and the wraparound window crop (claim C1)

The ticker strip is an RGBA bitmap of width `strip_w`; we model a row of it
as a function from the column index to an RGBA value.  `Image.crop` with a
box that extends past the right edge of the source pads the result with
zero pixels (transparent black) — this is the PIL semantics relied on at
src/next.py lines 186-191. -/

structure Pixel where
  r : ℕ
  g : ℕ
  b : ℕ
  a : ℕ
deriving DecidableEq, Repr

/-- Zero pixel produced by PIL for crop regions outside the source image. -/
def padPixel : Pixel := ⟨0, 0, 0, 0⟩

/-- TICKER_BG constant (src/next.py line 43): opaque red. -/
def TICKER_BG : Pixel := ⟨200, 0, 0, 255⟩

/-- Column `x` of `img.crop((left, 0, left + cropW, h))` for a source row of
width `stripW`: the source pixel when in range, PIL zero padding otherwise. -/
def cropPx (strip : ℕ → Pixel) (stripW left x : ℕ) : Pixel :=
  if left + x < stripW then strip (left + x) else padPixel

/-- Column `x` of the ticker window built by run_cycle (src/next.py lines
184-193): a single crop when `offset + W ≤ strip_w`, otherwise the crop
`strip[offset:strip_w]` pasted at 0 followed by the crop
`strip[0:W-(strip_w-offset)]` pasted at `strip_w - offset`. -/
def windowPx (strip : ℕ → Pixel) (stripW offset winW x : ℕ) : Pixel :=
  if offset + winW ≤ stripW then cropPx strip stripW offset x
  else if x < stripW - offset then cropPx strip stripW offset x
  else cropPx strip stripW 0 (x - (stripW - offset))

/-- Ticker strip whose every column is the opaque red background pixel;
the simplest concrete strip on which the wraparound defect is visible. -/
def bgStrip : ℕ → Pixel := fun _ => TICKER_BG

/-! ## Frame compositing band (claim C8)

The composited frame is RGB (the base comes from an RGB array); the window is
RGBA and is pasted at `(0, HEIGHT - TICKER_HEIGHT)` using its own alpha
channel as the mask (src/next.py line 194). -/

structure RGB where
  r : ℕ
  g : ℕ
  b : ℕ
deriving DecidableEq, Repr

/-- Alpha blend of one source pixel over one destination pixel, the PIL
`paste` semantics with an RGBA mask: each channel is interpolated by the
mask's alpha (integer arithmetic scaled by 255). -/
def pasteMask (dst : RGB) (src : Pixel) : RGB :=
  ⟨(src.r * src.a + dst.r * (255 - src.a)) / 255,
   (src.g * src.a + dst.g * (255 - src.a)) / 255,
   (src.b * src.a + dst.b * (255 - src.a)) / 255⟩

/-- Top row of the ticker band, src/next.py line 173. -/
def ticker_y : ℕ := HEIGHT - TICKER_HEIGHT

/-- Pixel `(x, y)` of the composited frame produced at src/next.py line 194:
`frame.paste(window, (0, ticker_y), window)` alpha-blends the window into the
band of rows `[ticker_y, ticker_y + TICKER_HEIGHT)` and columns `[0, WIDTH)`;
every other pixel of the frame is left as the base pixel. -/
def compositeFrame (base : ℕ → ℕ → RGB) (window : ℕ → ℕ → Pixel) (x y : ℕ) : RGB :=
  if ticker_y ≤ y ∧ y < ticker_y + TICKER_HEIGHT ∧ x < WIDTH then
    pasteMask (base x y) (window x (y - ticker_y))
  else base x y

/-! ## Scroll-offset computation (claim C4)

Python float arithmetic is given exact rational semantics.  For a positive
divisor, Python's `%` on floats is `x - w * floor (x / w)`, and `int` applied
to the nonnegative result truncates, i.e. takes the floor. -/

/-- Python float modulo with a positive divisor, in exact rational
semantics: `x % w = x - w * floor (x / w)`. -/
def fmod (x w : ℚ) : ℚ := x - w * (⌊x / w⌋ : ℚ)

/-- Offset computed by the pacer at src/next.py line 182:
`int((elapsed * TICKER_SPEED_PX_PER_SEC) % strip_w)`.  The modulo result is
nonnegative, so `int` truncation is the floor. -/
def offsetCode (elapsed : ℚ) (stripW : ℕ) : ℤ :=
  ⌊fmod (elapsed * (TICKER_SPEED_PX_PER_SEC : ℚ)) (stripW : ℚ)⌋

/-- Offset formula as the spec words it (§4.3):
`offset(t) = floor(t * scroll_speed_px_per_sec) mod strip_width`. -/
def offsetSpec (elapsed : ℚ) (stripW : ℕ) : ℤ :=
  ⌊elapsed * (TICKER_SPEED_PX_PER_SEC : ℚ)⌋ % (stripW : ℤ)

/-! ## Frame pacing (claims C5 and C6)

The frame loop of run_cycle (src/next.py lines 176-201) with the wall clock
made explicit.  `t` is the elapsed time, advanced by `opT n` (the time spent
composing and writing frame `n`, an arbitrary timing oracle) and by the sleep
the pacer requests, which is assumed exact.  The loop body mirrors the source:
check `elapsed >= duration` at the top, emit the frame, increment `frame_idx`,
then sleep `min(ahead, 0.02)` only when ahead of schedule. -/

/-- Sleep performed after emitting frame `n` (so `frame_idx = n`) at elapsed
time `t`: src/next.py lines 198-201, `ahead = n / FPS - elapsed`, sleeping
`min(ahead, cap)` when positive and not at all otherwise. -/
def sleepAfter (F cap : ℚ) (n : ℕ) (t : ℚ) : ℚ :=
  let ahead := (n : ℚ) / F - t
  if 0 < ahead then min ahead cap else 0

/-- Frame loop of run_cycle with fuel: returns the list of emitted frame
indices (1-based `frame_idx` values) in emission order, or `none` if the fuel
is exhausted before `elapsed ≥ duration` stops the loop. -/
def pacerLoop (F cap D : ℚ) (opT : ℕ → ℚ) :
    ℕ → ℚ → ℕ → List ℕ → Option (List ℕ)
  | 0, _, _, _ => none
  | fuel + 1, t, n, acc =>
    if D ≤ t then some acc
    else
      pacerLoop F cap D opT fuel
        ((t + opT (n + 1)) + sleepAfter F cap (n + 1) (t + opT (n + 1)))
        (n + 1) (acc ++ [n + 1])

/-! ## Encoder channel lifecycle (claims C2 and C7)

Control flow of run_cycle (src/next.py lines 170-210) and of main's loop
(lines 221-237), with the encoder subprocess reduced to an event trace.
`writeOk i` says whether the blocking write of frame `i` succeeds; a failed
write raises (e.g. BrokenPipeError).  The `finally` block always runs:
`proc.stdin.close()` wrapped in `try/except pass`, then `proc.wait(timeout=5)`
wrapped in `try/except` whose handler calls `proc.kill()`; `kill` on a process
that already exited does not raise (subprocess semantics), so the teardown
itself never raises. -/

inductive Ev where
  | write (i : ℕ)
  | closeStdin
  | wait
  | kill
deriving DecidableEq, Repr

/-- Frame-writing loop body of run_cycle: attempts the writes of `plan` in
order; a failed write raises, ending the loop after that write's event.
Returns the events and whether an exception was raised. -/
def writeFrames (writeOk : ℕ → Bool) : List ℕ → List Ev × Bool
  | [] => ([], false)
  | i :: rest =>
    if writeOk i then
      ((Ev.write i) :: (writeFrames writeOk rest).1, (writeFrames writeOk rest).2)
    else
      ([Ev.write i], true)

/-- Teardown events of the `finally` block (src/next.py lines 202-210):
close the input stream (exceptions swallowed by `except: pass`), wait with a
bounded timeout, and kill the process if — and only if — the wait raises
(timeout or process already gone).  No event raises past the block. -/
def teardown (waitRaises : Bool) : List Ev :=
  Ev.closeStdin :: Ev.wait :: (if waitRaises then [Ev.kill] else [])

/-- Outcome of one run_cycle call: the event trace and whether an exception
escapes run_cycle (after the `finally` block has run). -/
structure CycleOut where
  events : List Ev
  raised : Bool
deriving DecidableEq, Repr

/-- run_cycle (src/next.py lines 170-210): the body writes frames until done
or until a write fails; the `finally` teardown runs on every exit path; a
body exception is re-raised after teardown. -/
def run_cycle (writeOk : ℕ → Bool) (waitRaises : Bool) (plan : List ℕ) : CycleOut :=
  ⟨(writeFrames writeOk plan).1 ++ teardown waitRaises, (writeFrames writeOk plan).2⟩

/-- Body of main's `while True` loop (src/next.py lines 221-237): run_cycle
is called with no surrounding exception handler, so a cycle that raises
terminates the process (`Except.error`) instead of letting the loop fetch
fresh content and start the next cycle (`Except.ok`). -/
def main_iter (writeOk : ℕ → Bool) (waitRaises : Bool) (plan : List ℕ) :
    Except CycleOut CycleOut :=
  if (run_cycle writeOk waitRaises plan).raised then
    Except.error (run_cycle writeOk waitRaises plan)
  else
    Except.ok (run_cycle writeOk waitRaises plan)

/-! ## Ticker-strip builder and shaping (claim C3)

build_ticker_strip (src/next.py lines 128-142) shapes its input via
shape_urdu *inside* the builder before drawing it twice.  The external
library functions `arabic_reshaper.reshape` and `bidi.algorithm.get_display`
are kept as parameters of the embedding; text is a sequence of characters. -/

/-- shape_urdu, src/next.py lines 97-99: reshape, then bidi display
reordering. -/
def shape_urdu (reshape display : List Char → List Char) (text : List Char) : List Char :=
  display (reshape text)

/-- Modelled from the spec: the bidi `get_display` step (a library function,
not part of src/) produces the visual glyph ordering, which for
right-to-left text reorders the sequence — on a line that is one
right-to-left run, the visual order is the reverse of the logical order.
Characters here are opaque tokens standing for RTL code points. -/
def bidiDisplayRTL : List Char → List Char := List.reverse

/-- Draw call recorded by the builder: horizontal position and the glyph
sequence passed to `draw.text`. -/
structure DrawOp where
  x : ℕ
  glyphs : List Char
deriving DecidableEq, Repr

/-- build_ticker_strip, src/next.py lines 128-142: shapes the input text,
then draws the shaped sequence at x = 0 and again at x = text_w + TICKER_GAP
on a strip of width `text_w + TICKER_GAP + text_w`.  `text_w` abstracts the
measured bounding-box width of the shaped text; the vertical layout is
irrelevant to the glyph order.  Returns the draw calls and the strip
width. -/
def build_ticker_strip (reshape display : List Char → List Char)
    (text : List Char) (text_w : ℕ) : List DrawOp × ℕ :=
  ([⟨0, shape_urdu reshape display text⟩,
    ⟨text_w + TICKER_GAP, shape_urdu reshape display text⟩],
   text_w + TICKER_GAP + text_w)

/-! ## Translation fallback (claim C9)

to_urdu (src/next.py lines 91-95) calls the external translator inside
`try/except` and falls back to the untranslated input on any exception; the
translator is modelled as a function that may fail.  main's per-headline
loop (lines 225-232) wraps to_urdu in a second `try/except` with the same
fallback, so the cycle always proceeds with one output string per input. -/

/-- to_urdu, src/next.py lines 91-95: return the translation, or the
original text if the translator raises. -/
def to_urdu (translate : String → Except String String) (text : String) : String :=
  match translate text with
  | Except.ok u => u
  | Except.error _ => text

/-- Headline-translation loop of main, src/next.py lines 225-232: one output
per input headline, via to_urdu. -/
def translateHeadlines (translate : String → Except String String)
    (raw : List String) : List String :=
  raw.map (to_urdu translate)

/-! ## Headline fetching (claim C10)

fetch_headlines (src/next.py lines 74-89).  A Python string is a list of
characters; an RSS entry contributes an optional title
(`entry.get("title")` may be missing); a feed either fails to parse
(`none`, the `except: continue` path) or yields a list of entries.  The
`seen` set always equals the set of collected items, so the membership test
is against the accumulated list. -/

/-- Python `str.strip()`: drop whitespace from both ends. -/
def trimChars (s : List Char) : List Char :=
  ((s.dropWhile Char.isWhitespace).reverse.dropWhile Char.isWhitespace).reverse

/-- Title of one entry, src/next.py line 80: `(entry.get("title") or "").strip()`. -/
def titleOf (e : Option (List Char)) : List Char := trimChars (e.getD [])

/-- Titles a feed can contribute: its first 10 entries, stripped (src/next.py
line 79); a failed feed contributes none. -/
def feedTitles (f : Option (List (Option (List Char)))) : List (List Char) :=
  ((f.getD []).take 10).map titleOf

/-- Inner entry loop, src/next.py lines 79-86: skip blank or already-seen
titles, append the rest, and return early — flag `true` — as soon as
`len(items) >= max_items` after an append. -/
def addEntries (maxItems : ℕ) :
    List (Option (List Char)) → List (List Char) → List (List Char) × Bool
  | [], items => (items, false)
  | e :: rest, items =>
    if titleOf e = [] ∨ titleOf e ∈ items then addEntries maxItems rest items
    else if maxItems ≤ (items ++ [titleOf e]).length then (items ++ [titleOf e], true)
    else addEntries maxItems rest (items ++ [titleOf e])

/-- Feed loop, src/next.py lines 76-89: a feed that fails to parse is
skipped; otherwise its first 10 entries are processed, and the early-return
flag stops the whole fetch. -/
def fetch_headlines (maxItems : ℕ) :
    List (Option (List (Option (List Char)))) → List (List Char) → List (List Char)
  | [], items => items
  | none :: rest, items => fetch_headlines maxItems rest items
  | some entries :: rest, items =>
    if (addEntries maxItems (entries.take 10) items).2 then
      (addEntries maxItems (entries.take 10) items).1
    else fetch_headlines maxItems rest (addEntries maxItems (entries.take 10) items).1

/-! ## Theorems -/

/-- C1: in the spec scenario strip_width = 1140 (text_w = 500, gap = 140) and
W = 1920, at offset 400 the window's column 1880 should continue tiling the
strip — the claim requires `strip ((offset + x) % strip_width)`, here the red
background pixel — but the code's wrapped-remainder crop extends 1180 > 1140
columns past the strip start, so PIL pads with transparent zero pixels and the
window is not a continuous tiling of the strip. -/
theorem C1_wraparound_zero_pad :
    windowPx bgStrip 1140 400 1920 1880 = padPixel
      ∧ bgStrip ((400 + 1880) % 1140) = TICKER_BG
      ∧ padPixel ≠ TICKER_BG := by
  refine ⟨by decide, rfl, by decide⟩

/-- C8: every pixel of the composited frame outside the bottom TICKER_HEIGHT
rows equals the corresponding pixel of the base frame — only the bottom
ticker band is modified. -/
theorem C8_band_only (base : ℕ → ℕ → RGB) (window : ℕ → ℕ → Pixel)
    (x y : ℕ) (hy : y < HEIGHT - TICKER_HEIGHT) :
    compositeFrame base window x y = base x y := by
  unfold compositeFrame ticker_y
  rw [if_neg]
  intro h
  exact absurd h.1 (not_le.mpr hy)

/-- C8 witness: at pixel (0, 0), far above the band, the composited frame
keeps the base pixel. -/
theorem C8_band_only_witness :
    0 < HEIGHT - TICKER_HEIGHT
      ∧ compositeFrame (fun _ _ => ⟨1, 2, 3⟩) (fun _ _ => ⟨9, 9, 9, 255⟩) 0 0 = ⟨1, 2, 3⟩ :=
  ⟨by decide, C8_band_only (fun _ _ => ⟨1, 2, 3⟩) (fun _ _ => ⟨9, 9, 9, 255⟩) 0 0 (by decide)⟩

/-- Floor of the float-modulo expression equals the integer modulo of the
floor, for any rational and positive natural divisor. -/
theorem floor_fmod_eq_emod (x : ℚ) (w : ℕ) (hw : 0 < w) :
    ⌊fmod x w⌋ = ⌊x⌋ % (w : ℤ) := by
  have hw' : (0 : ℚ) < (w : ℚ) := by exact_mod_cast hw
  set q : ℤ := ⌊x / (w : ℚ)⌋ with hq
  have hcast : fmod x w = x - ((q * w : ℤ) : ℚ) := by
    unfold fmod
    push_cast
    ring
  have hfloor : ⌊fmod x w⌋ = ⌊x⌋ - q * w := by
    rw [hcast, Int.floor_sub_int]
  have h0 : (0 : ℚ) ≤ x - ((q * w : ℤ) : ℚ) := by
    have := Int.sub_floor_div_mul_nonneg x hw'
    push_cast
    push_cast at this
    linarith
  have h1 : x - ((q * w : ℤ) : ℚ) < w := by
    have := Int.sub_floor_div_mul_lt x hw'
    push_cast
    push_cast at this
    linarith
  have hr0 : 0 ≤ ⌊x⌋ - q * w := by
    have h := Int.le_floor.mpr (by exact_mod_cast h0 : ((0 : ℤ) : ℚ) ≤ x - ((q * w : ℤ) : ℚ))
    rwa [Int.floor_sub_int] at h
  have hr1 : ⌊x⌋ - q * w < w := by
    have h := Int.floor_lt.mpr (by exact_mod_cast h1 : x - ((q * w : ℤ) : ℚ) < ((w : ℤ) : ℚ))
    rwa [Int.floor_sub_int] at h
  have h2 : ⌊x⌋ - q * w = ⌊x⌋ + (w : ℤ) * (-q) := by ring
  rw [hfloor, ← Int.emod_eq_of_lt hr0 hr1, h2, Int.add_mul_emod_self_left]

/-- C4: for every elapsed time t ≥ 0 and strip width w > 0, the offset the
pacer computes, `int((t * 160) % w)`, equals `floor(t * 160) mod w` as the
spec states; and at t = 7.125 s with scroll speed 160 it equals
`floor(7.125 * 160) mod w = 1140 mod w`. -/
theorem C4_offset_formula (t : ℚ) (ht : 0 ≤ t) (w : ℕ) (hw : 0 < w) :
    offsetCode t w = offsetSpec t w
      ∧ offsetCode (57 / 8) w = 1140 % (w : ℤ) := by
  constructor
  · exact floor_fmod_eq_emod _ w hw
  · rw [offsetCode, floor_fmod_eq_emod _ w hw]
    norm_num [TICKER_SPEED_PX_PER_SEC]

/-- C4 witness: at t = 7.125 s and strip width 1140 the pacer offset equals
the spec formula, and equals 1140 mod 1140 = 0. -/
theorem C4_offset_formula_witness :
    (0 : ℚ) ≤ 57 / 8 ∧ 0 < 1140
      ∧ (offsetCode (57 / 8) 1140 = offsetSpec (57 / 8) 1140
          ∧ offsetCode (57 / 8) 1140 = 1140 % (1140 : ℤ)) :=
  ⟨by norm_num, by norm_num, C4_offset_formula (57 / 8) (by norm_num) 1140 (by norm_num)⟩

/-- Shifting lemma for consecutive index ranges. -/
theorem range_succ_shift (n k : ℕ) :
    (List.range (k + 1)).map (fun i => n + 1 + i)
      = (n + 1) :: (List.range k).map (fun i => n + 2 + i) := by
  rw [List.range_succ_eq_map, List.map_cons, List.map_map]
  refine congrArg₂ _ (by omega) (List.map_congr_left ?_)
  intro i _
  simp [Function.comp]
  omega

/-- Every successful pacer run extends its accumulator with the consecutive
frame indices `n+1, n+2, ...`: frames are neither skipped nor repeated. -/
theorem pacerLoop_trace (F cap D : ℚ) (opT : ℕ → ℚ) :
    ∀ (fuel : ℕ) (t : ℚ) (n : ℕ) (acc out : List ℕ),
      pacerLoop F cap D opT fuel t n acc = some out →
      ∃ k, out = acc ++ (List.range k).map (fun i => n + 1 + i) := by
  intro fuel
  induction fuel with
  | zero => intro t n acc out h; exact absurd h (by simp [pacerLoop])
  | succ fuel ih =>
    intro t n acc out h
    rw [pacerLoop] at h
    by_cases hstop : D ≤ t
    · rw [if_pos hstop] at h
      exact ⟨0, by simpa using (Option.some_injective _ h).symm⟩
    · rw [if_neg hstop] at h
      obtain ⟨k, hk⟩ := ih _ _ _ _ h
      refine ⟨k + 1, ?_⟩
      rw [hk, range_succ_shift, List.append_assoc]
      simp

/-- C6: whenever the frame loop completes, the emitted frame indices are
exactly 1, 2, ..., count in order — every index once, none skipped — and the
post-emission pacing is the source's: when the elapsed time `t` is before the
target time `n / F` for the `n`-th frame the pacer sleeps
`min (n / F - t) cap`, and when at or past the target it does not sleep. -/
theorem C6_pacing_no_skip (F cap D : ℚ) (opT : ℕ → ℚ) (fuel : ℕ)
    (out : List ℕ) (n : ℕ) (t : ℚ)
    (hrun : pacerLoop F cap D opT fuel 0 0 [] = some out) :
    out = (List.range out.length).map (fun i => 1 + i)
      ∧ (t < (n : ℚ) / F → sleepAfter F cap n t = min ((n : ℚ) / F - t) cap)
      ∧ ((n : ℚ) / F ≤ t → sleepAfter F cap n t = 0) := by
  refine ⟨?_, ?_, ?_⟩
  · obtain ⟨k, hk⟩ := pacerLoop_trace F cap D opT fuel 0 0 [] out hrun
    simp only [List.nil_append] at hk
    have hlen : out.length = k := by rw [hk]; simp
    rw [hlen, hk]
  · intro hlt
    unfold sleepAfter
    rw [if_pos (by linarith)]
  · intro hle
    unfold sleepAfter
    rw [if_neg (by simp; linarith)]

/-- Concrete fast-production run: D = 1/8 s at F = 24 fps with the 0.02 s
sleep cap and zero-cost compose+write; the pacer emits 7 frames. -/
theorem pacerFastRun :
    pacerLoop 24 (1 / 50) (1 / 8) (fun _ => 0) 9 0 0 [] =
      some [1, 2, 3, 4, 5, 6, 7] := by
  norm_num [pacerLoop, sleepAfter]

/-- C6 witness: the fast-production run completes, its trace is 1..7 in
order, and the pacing equations hold at n = 1, t = 0. -/
theorem C6_pacing_no_skip_witness :
    pacerLoop 24 (1 / 50) (1 / 8) (fun _ => 0) 9 0 0 [] = some [1, 2, 3, 4, 5, 6, 7]
      ∧ ([1, 2, 3, 4, 5, 6, 7]
            = (List.range ([1, 2, 3, 4, 5, 6, 7] : List ℕ).length).map (fun i => 1 + i)
          ∧ ((0 : ℚ) < (1 : ℚ) / 24 →
              sleepAfter 24 (1 / 50) 1 0 = min ((1 : ℚ) / 24 - 0) (1 / 50))
          ∧ ((1 : ℚ) / 24 ≤ 0 → sleepAfter 24 (1 / 50) 1 0 = 0)) := by
  refine ⟨pacerFastRun, ?_⟩
  have h := C6_pacing_no_skip 24 (1 / 50) (1 / 8) (fun _ => 0) 9
    [1, 2, 3, 4, 5, 6, 7] 1 0 pacerFastRun
  simpa using h

/-- Paced-run lemma: when composing and writing each frame takes exactly
`1 / F` seconds (the encoder-backpressure regime), the elapsed time after `n`
frames is exactly `n / F`, no sleeps occur, and from state `(n / F, n)` the
loop emits precisely the frames needed to reach `⌈D * F⌉`. -/
theorem pacerLoop_paced (F cap D : ℚ) (hF : 0 < F) :
    ∀ (fuel n : ℕ) (acc : List ℕ), ⌈D * F⌉.toNat ≤ n + fuel →
      pacerLoop F cap D (fun _ => 1 / F) (fuel + 1) ((n : ℚ) / F) n acc
        = some (acc ++ (List.range (⌈D * F⌉.toNat - n)).map (fun i => n + 1 + i)) := by
  have hstop : ∀ n : ℕ, (D ≤ (n : ℚ) / F) ↔ ⌈D * F⌉.toNat ≤ n := by
    intro n
    rw [le_div_iff₀ hF, Int.toNat_le, Int.ceil_le]
    norm_cast
  intro fuel
  induction fuel with
  | zero =>
    intro n acc hfuel
    rw [pacerLoop, if_pos ((hstop n).mpr (by omega))]
    have : ⌈D * F⌉.toNat - n = 0 := by omega
    rw [this]
    simp
  | succ fuel ih =>
    intro n acc hfuel
    by_cases hend : D ≤ (n : ℚ) / F
    · rw [pacerLoop, if_pos hend]
      have : ⌈D * F⌉.toNat - n = 0 := by
        have := (hstop n).mp hend
        omega
      rw [this]
      simp
    · have hstep : (n : ℚ) / F + 1 / F = ((n + 1 : ℕ) : ℚ) / F := by
        rw [div_add_div_same]
        push_cast
        ring_nf
      have hsleep : sleepAfter F cap (n + 1) (((n + 1 : ℕ) : ℚ) / F) = 0 := by
        unfold sleepAfter
        rw [if_neg (by simp)]
      have hn1 : ⌈D * F⌉.toNat ≤ (n + 1) + fuel := by omega
      rw [pacerLoop, if_neg hend]
      rw [hstep, hsleep, add_zero, ih (n + 1) (acc ++ [n + 1]) hn1]
      have hlt : n < ⌈D * F⌉.toNat := by
        by_contra hge
        exact hend ((hstop n).mpr (by omega))
      have hsub : ⌈D * F⌉.toNat - n = (⌈D * F⌉.toNat - (n + 1)) + 1 := by omega
      rw [hsub, range_succ_shift, List.append_assoc]
      simp

/-- C5 (amended): under write-paced timing — each frame's composition and
write together take exactly `1 / F` seconds — a cycle of duration D at frame
rate F emits `count` frames with `⌊D * F⌋ ≤ count ≤ ⌈D * F⌉ + 1`. -/
theorem C5_frame_count_paced (F cap D : ℚ) (hF : 0 < F) (hD : 0 < D) :
    ∃ out, pacerLoop F cap D (fun _ => 1 / F) (⌈D * F⌉.toNat + 1) 0 0 [] = some out
      ∧ ⌊D * F⌋.toNat ≤ out.length ∧ out.length ≤ ⌈D * F⌉.toNat + 1 := by
  have h0 : ((0 : ℕ) : ℚ) / F = 0 := by simp
  have hrun := pacerLoop_paced F cap D hF (⌈D * F⌉.toNat) 0 [] (by omega)
  rw [h0] at hrun
  refine ⟨_, hrun, ?_, ?_⟩
  · simp only [List.nil_append, List.length_map, List.length_range]
    exact Nat.sub_zero _ ▸ Int.toNat_le_toNat (Int.floor_le_ceil _)
  · simp only [List.nil_append, List.length_map, List.length_range]
    omega

/-- C5 counterexample: with zero-cost compose+write, D = 1/8 s and F = 24,
the 0.02 s sleep cap lets the pacer emit 7 frames, exceeding the claimed
upper bound `⌈D * F⌉ + 1 = 4`; the claim is false under unconstrained frame
timing. -/
theorem C5_frame_count_counterexample :
    pacerLoop 24 (1 / 50) (1 / 8) (fun _ => 0) 9 0 0 [] = some [1, 2, 3, 4, 5, 6, 7]
      ∧ ¬ (([1, 2, 3, 4, 5, 6, 7] : List ℕ).length ≤ (⌈(1 / 8 : ℚ) * 24⌉.toNat + 1)) := by
  refine ⟨pacerFastRun, ?_⟩
  have h3 : ⌈(1 / 8 : ℚ) * 24⌉ = 3 := by norm_num
  rw [h3]
  decide

/-- C5 witness: the paced bound applied at D = 1 s, F = 24 fps. -/
theorem C5_frame_count_paced_witness :
    (0 : ℚ) < 24 ∧ (0 : ℚ) < 1
      ∧ (∃ out, pacerLoop 24 (1 / 50) 1 (fun _ => 1 / 24) (⌈(1 : ℚ) * 24⌉.toNat + 1) 0 0 []
            = some out
          ∧ ⌊(1 : ℚ) * 24⌋.toNat ≤ out.length ∧ out.length ≤ ⌈(1 : ℚ) * 24⌉.toNat + 1) :=
  ⟨by norm_num, by norm_num, C5_frame_count_paced 24 (1 / 50) 1 (by norm_num) (by norm_num)⟩

/-- C2: when the write of frame 10 fails in a 100-frame cycle, the cycle does
terminate early (no write after frame 10) and teardown runs, but the
exception escapes run_cycle and main has no handler: the process crashes
(`Except.error`) instead of beginning a new cycle — the claim's "overall
process does not crash" is violated by the code. -/
theorem C2_write_failure_crashes :
    main_iter (fun i => i != 10) false (List.range 100)
      = Except.error ⟨((List.range 11).map Ev.write) ++ [Ev.closeStdin, Ev.wait], true⟩ := by
  rfl

/-- C7: on every exit path of run_cycle — any write-failure pattern, any
plan, whether or not the body raised — the trace ends with the teardown
sequence in order: close the encoder's input stream, then the bounded wait,
then a kill exactly when the wait raised; and run_cycle raises only what the
body raised, never an exception of the teardown itself. -/
theorem C7_teardown_every_path (writeOk : ℕ → Bool) (waitRaises : Bool) (plan : List ℕ) :
    (run_cycle writeOk waitRaises plan).events
        = (writeFrames writeOk plan).1
            ++ Ev.closeStdin :: Ev.wait :: (if waitRaises then [Ev.kill] else [])
      ∧ (run_cycle writeOk waitRaises plan).raised = (writeFrames writeOk plan).2
      ∧ (Ev.kill ∈ teardown waitRaises ↔ waitRaises = true) := by
  refine ⟨rfl, rfl, ?_⟩
  cases waitRaises <;> simp [teardown]

/-- C7 witness: a two-frame cycle whose wait times out: the trace is the two
writes, then close, wait, kill; nothing raised. -/
theorem C7_teardown_every_path_witness :
    (run_cycle (fun _ => true) true [0, 1]).events
        = (writeFrames (fun _ => true) [0, 1]).1
            ++ Ev.closeStdin :: Ev.wait :: (if true then [Ev.kill] else [])
      ∧ (run_cycle (fun _ => true) true [0, 1]).raised
          = (writeFrames (fun _ => true) [0, 1]).2
      ∧ (Ev.kill ∈ teardown true ↔ true = true) :=
  C7_teardown_every_path (fun _ => true) true [0, 1]

/-- C3 counterexample: with identity reshaping and the right-to-left display
reordering, the builder invoked on the two-character text "ba" draws the
sequence "ab" — not the input sequence as given by the caller — so the claim
that the glyph sequence drawn into the strip is the caller's input sequence
is false. -/
theorem C3_builder_reorders :
    ((build_ticker_strip id bidiDisplayRTL [ 'b', 'a' ] 10).1.map DrawOp.glyphs)
        = [[ 'a', 'b' ], [ 'a', 'b' ]]
      ∧ ([ 'a', 'b' ] : List Char) ≠ [ 'b', 'a' ] := by
  exact ⟨rfl, by decide⟩

/-- C3 (amended): the builder itself applies the shaping step: for every
reshape and display function and every input text, the glyph sequence drawn
(twice, at x = 0 and x = text_w + gap, on a strip of width
2 * text_w + gap) is `shape_urdu text = display (reshape text)`, which is the
caller's input only when the shaping pipeline preserves it. -/
theorem C3_builder_draws_shaped (reshape display : List Char → List Char)
    (text : List Char) (text_w : ℕ) :
    (build_ticker_strip reshape display text text_w).1.map DrawOp.glyphs
        = [shape_urdu reshape display text, shape_urdu reshape display text]
      ∧ (build_ticker_strip reshape display text text_w).1.map DrawOp.x
          = [0, text_w + TICKER_GAP]
      ∧ (build_ticker_strip reshape display text text_w).2
          = text_w + TICKER_GAP + text_w :=
  ⟨rfl, rfl, rfl⟩

/-- C3 witness: the amended statement at the counterexample's concrete
input. -/
theorem C3_builder_draws_shaped_witness :
    (build_ticker_strip id bidiDisplayRTL [ 'b', 'a' ] 10).1.map DrawOp.glyphs
        = [shape_urdu id bidiDisplayRTL [ 'b', 'a' ], shape_urdu id bidiDisplayRTL [ 'b', 'a' ]]
      ∧ (build_ticker_strip id bidiDisplayRTL [ 'b', 'a' ] 10).1.map DrawOp.x
          = [0, 10 + TICKER_GAP]
      ∧ (build_ticker_strip id bidiDisplayRTL [ 'b', 'a' ] 10).2
          = 10 + TICKER_GAP + 10 :=
  C3_builder_draws_shaped id bidiDisplayRTL [ 'b', 'a' ] 10

/-- C9: if the translator raises on a headline, to_urdu yields the original
untranslated string, and the cycle proceeds: the translated list always has
one entry per raw headline, so a translation failure never terminates the
cycle or the process. -/
theorem C9_translation_fallback (translate : String → Except String String)
    (t e : String) (hfail : translate t = Except.error e) (raw : List String) :
    to_urdu translate t = t
      ∧ (translateHeadlines translate raw).length = raw.length := by
  constructor
  · unfold to_urdu
    rw [hfail]
  · unfold translateHeadlines
    exact List.length_map raw _

/-- C9 witness: a translator that always raises leaves the headline
unchanged and the translated list full-length. -/
theorem C9_translation_fallback_witness :
    (fun _ : String => (Except.error "offline" : Except String String)) "khabar"
        = Except.error "offline"
      ∧ (to_urdu (fun _ => Except.error "offline") "khabar" = "khabar"
          ∧ (translateHeadlines (fun _ => Except.error "offline") [ "khabar" ]).length
              = ([ "khabar" ] : List String).length) :=
  ⟨rfl, C9_translation_fallback (fun _ => Except.error "offline") "khabar" "offline"
    rfl [ "khabar" ]⟩

/-- Invariants of the entry loop: it appends a sublist of the entry titles,
every appended title is nonblank, nodup is preserved, and as long as the
accumulator starts strictly below `maxItems` the result stays within
`maxItems` — exactly at `maxItems` when the early-return flag fires, strictly
below otherwise. -/
theorem addEntries_spec (m : ℕ) (entries : List (Option (List Char))) :
    ∀ items : List (List Char),
      ∃ c, (addEntries m entries items).1 = items ++ c
        ∧ List.Sublist c (entries.map titleOf)
        ∧ (∀ s ∈ c, s ≠ [])
        ∧ (items.Nodup → (items ++ c).Nodup)
        ∧ (items.length < m →
            (items ++ c).length ≤ m
              ∧ ((addEntries m entries items).2 = false → (items ++ c).length < m)) := by
  induction entries with
  | nil =>
    intro items
    exact ⟨[], by simp [addEntries], List.nil_sublist _, by simp, by simp,
      fun h => by simp [addEntries]; omega⟩
  | cons e rest ih =>
    intro items
    by_cases hskip : titleOf e = [] ∨ titleOf e ∈ items
    · obtain ⟨c, h1, h2, h3, h4, h5⟩ := ih items
      have heq : addEntries m (e :: rest) items = addEntries m rest items := by
        rw [addEntries, if_pos hskip]
      rw [heq]
      exact ⟨c, h1, List.Sublist.cons _ h2, h3, h4, h5⟩
    · push_neg at hskip
      by_cases hfull : m ≤ (items ++ [titleOf e]).length
      · have heq : addEntries m (e :: rest) items = (items ++ [titleOf e], true) := by
          rw [addEntries, if_neg (by push_neg; exact hskip), if_pos hfull]
        rw [heq]
        refine ⟨[titleOf e], rfl, ?_, ?_, ?_, ?_⟩
        · exact List.Sublist.cons₂ _ (List.nil_sublist _)
        · intro s hs
          rw [List.mem_singleton] at hs
          rw [hs]
          exact hskip.1
        · intro hnd
          rw [List.nodup_append]
          exact ⟨hnd, List.nodup_singleton _, by
            intro a ha hb
            rw [List.mem_singleton] at hb
            exact hskip.2 (hb ▸ ha)⟩
        · intro hlt
          constructor
          · rw [List.length_append, List.length_singleton]
            omega
          · intro hc
            exact absurd hc (by simp)
      · have heq : addEntries m (e :: rest) items
            = addEntries m rest (items ++ [titleOf e]) := by
          rw [addEntries, if_neg (by push_neg; exact hskip), if_neg hfull]
        obtain ⟨c, h1, h2, h3, h4, h5⟩ := ih (items ++ [titleOf e])
        rw [heq]
        have hnd1 : items.Nodup → (items ++ [titleOf e]).Nodup := by
          intro hnd
          rw [List.nodup_append]
          exact ⟨hnd, List.nodup_singleton _, by
            intro a ha hb
            rw [List.mem_singleton] at hb
            exact hskip.2 (hb ▸ ha)⟩
        refine ⟨titleOf e :: c, ?_, List.Sublist.cons₂ _ h2, ?_, ?_, ?_⟩
        · rw [h1, List.append_assoc]
          rfl
        · intro s hs
          rcases List.mem_cons.mp hs with h | h
          · rw [h]; exact hskip.1
          · exact h3 s h
        · intro hnd
          have := h4 (hnd1 hnd)
          rwa [List.append_assoc] at this
        · intro hlt
          have hlt1 : (items ++ [titleOf e]).length < m := by
            rw [List.length_append, List.length_singleton] at hfull ⊢
            omega
          obtain ⟨ha, hb⟩ := h5 hlt1
          rw [List.append_assoc] at ha hb
          exact ⟨ha, hb⟩

/-- Join of replicated empty lists is empty. -/
theorem flatten_replicate_nil {α : Type} (k : ℕ) :
    (List.replicate k ([] : List α)).flatten = [] := by
  induction k with
  | zero => rfl
  | succ k ih => rw [List.replicate_succ, List.flatten_cons, List.nil_append, ih]

/-- Structure of the feed loop: the result extends the accumulator with one
contribution per feed — each a sublist of that feed's first-10 stripped
titles, taken in feed order — with nonblank entries, preserved nodup, and
the `maxItems` bound whenever the accumulator starts strictly below it. -/
theorem fetch_spec (m : ℕ) (feeds : List (Option (List (Option (List Char))))) :
    ∀ items : List (List Char),
      ∃ cs : List (List (List Char)),
        cs.length = feeds.length
        ∧ fetch_headlines m feeds items = items ++ cs.flatten
        ∧ (∀ (i : ℕ) (h1 : i < cs.length) (h2 : i < feeds.length),
            List.Sublist (cs.get ⟨i, h1⟩) (feedTitles (feeds.get ⟨i, h2⟩)))
        ∧ (∀ s ∈ cs.flatten, s ≠ [])
        ∧ (items.Nodup → (fetch_headlines m feeds items).Nodup)
        ∧ (items.length < m → (fetch_headlines m feeds items).length ≤ m) := by
  induction feeds with
  | nil =>
    intro items
    refine ⟨[], rfl, by simp [fetch_headlines], by simp, by simp,
      fun h => by simpa [fetch_headlines] using h, fun h => by simp [fetch_headlines]; omega⟩
  | cons f rest ih =>
    intro items
    match f with
    | none =>
      obtain ⟨cs, hlen, hjoin, hget, hmem, hnd, hbound⟩ := ih items
      have heq : fetch_headlines m (none :: rest) items = fetch_headlines m rest items := by
        rw [fetch_headlines]
      refine ⟨[] :: cs, by simp [hlen], ?_, ?_, ?_, ?_, ?_⟩
      · rw [heq, hjoin, List.flatten_cons, List.nil_append]
      · intro i h1 h2
        match i with
        | 0 => exact List.nil_sublist _
        | i + 1 =>
          exact hget i (by simpa using h1) (by simpa using h2)
      · intro s hs
        rw [List.flatten_cons, List.nil_append] at hs
        exact hmem s hs
      · rw [heq]; exact hnd
      · rw [heq]; exact hbound
    | some entries =>
      obtain ⟨c, a1, a2, a3, a4, a5⟩ := addEntries_spec m (entries.take 10) items
      have hsub : List.Sublist c (feedTitles (some entries)) := a2
      by_cases hflag : (addEntries m (entries.take 10) items).2 = true
      · have heq : fetch_headlines m (some entries :: rest) items
            = (addEntries m (entries.take 10) items).1 := by
          rw [fetch_headlines, if_pos hflag]
        refine ⟨c :: List.replicate rest.length [], by simp, ?_, ?_, ?_, ?_, ?_⟩
        · rw [heq, a1, List.flatten_cons, flatten_replicate_nil, List.append_nil]
        · intro i h1 h2
          match i with
          | 0 => exact hsub
          | i + 1 =>
            have : (List.replicate rest.length ([] : List (List Char))).get
                ⟨i, by simpa using h1⟩ = [] := List.get_replicate _ _
            rw [List.get_cons_succ]
            rw [this]
            exact List.nil_sublist _
        · intro s hs
          rw [List.flatten_cons, flatten_replicate_nil, List.append_nil] at hs
          exact a3 s hs
        · intro hnd
          rw [heq, a1]
          exact a4 hnd
        · intro hlt
          rw [heq, a1]
          exact (a5 hlt).1
      · have hflag' : (addEntries m (entries.take 10) items).2 = false := by
          simpa using hflag
        have heq : fetch_headlines m (some entries :: rest) items
            = fetch_headlines m rest (addEntries m (entries.take 10) items).1 := by
          rw [fetch_headlines, if_neg (by simp [hflag'])]
        obtain ⟨cs, hlen, hjoin, hget, hmem, hnd, hbound⟩ :=
          ih (addEntries m (entries.take 10) items).1
        refine ⟨c :: cs, by simp [hlen], ?_, ?_, ?_, ?_, ?_⟩
        · rw [heq, hjoin, a1, List.flatten_cons, List.append_assoc]
        · intro i h1 h2
          match i with
          | 0 => exact hsub
          | i + 1 =>
            exact hget i (by simpa using h1) (by simpa using h2)
        · intro s hs
          rw [List.flatten_cons] at hs
          rcases List.mem_append.mp hs with h | h
          · exact a3 s h
          · exact hmem s h
        · intro hnd0
          rw [heq]
          exact hnd (a1 ▸ a4 hnd0)
        · intro hlt
          rw [heq]
          refine hbound ?_
          rw [a1]
          exact (a5 hlt).2 hflag'

/-- Skipping a failed feed: inserting a feed that fails to parse anywhere in
the feed list leaves the fetched titles unchanged. -/
theorem fetch_skip_none (m : ℕ) (before after : List (Option (List (Option (List Char))))) :
    ∀ items : List (List Char),
      fetch_headlines m (before ++ none :: after) items
        = fetch_headlines m (before ++ after) items := by
  induction before with
  | nil =>
    intro items
    rw [List.nil_append, List.nil_append, fetch_headlines]
  | cons f rest ih =>
    intro items
    match f with
    | none =>
      rw [List.cons_append, fetch_headlines, List.cons_append, fetch_headlines]
      exact ih items
    | some entries =>
      rw [List.cons_append, fetch_headlines, List.cons_append, fetch_headlines]
      by_cases hflag : (addEntries m (entries.take 10) items).2 = true
      · rw [if_pos hflag, if_pos hflag]
      · rw [if_neg hflag, if_neg hflag]
        exact ih _

/-- C10 counterexample: with `max_items = 0` the claim "at most max_items
titles" fails — the early-return check runs only after appending, so one
feed with one nonblank title makes fetch_headlines return one title, not
zero. -/
theorem C10_fetch_counterexample :
    fetch_headlines 0 [some [some [ 'a' ]]] [] = [[ 'a' ]]
      ∧ ¬ ((fetch_headlines 0 [some [some [ 'a' ]]] []).length ≤ 0) := by
  constructor <;> decide

/-- C10 (amended): for every `max_items ≥ 1`, fetch_headlines returns at
most `max_items` titles, without duplicates and without empty strings,
collecting per feed — in feed order — a selection of the stripped titles of
that feed's first 10 entries; and a feed that fails to parse is skipped
without affecting the titles collected from the other feeds. -/
theorem C10_fetch_properties (m : ℕ) (hm : 1 ≤ m)
    (feeds : List (Option (List (Option (List Char))))) :
    (fetch_headlines m feeds []).length ≤ m
      ∧ (fetch_headlines m feeds []).Nodup
      ∧ (∀ s ∈ fetch_headlines m feeds [], s ≠ [])
      ∧ (∃ cs : List (List (List Char)),
          cs.length = feeds.length
            ∧ fetch_headlines m feeds [] = cs.flatten
            ∧ ∀ (i : ℕ) (h1 : i < cs.length) (h2 : i < feeds.length),
                List.Sublist (cs.get ⟨i, h1⟩) (feedTitles (feeds.get ⟨i, h2⟩)))
      ∧ (∀ before after, fetch_headlines m (before ++ none :: after) []
            = fetch_headlines m (before ++ after) []) := by
  obtain ⟨cs, hlen, hjoin, hget, hmem, hnd, hbound⟩ := fetch_spec m feeds []
  rw [List.nil_append] at hjoin
  refine ⟨?_, ?_, ?_, ⟨cs, hlen, hjoin, hget⟩, ?_⟩
  · exact hbound (by simpa using hm)
  · exact hnd (List.nodup_nil)
  · intro s hs
    rw [hjoin] at hs
    exact hmem s hs
  · intro before after
    exact fetch_skip_none m before after []

/-- C10 witness: with max_items = 40 and three feeds — one good feed whose
titles include a blank, a duplicate and padding whitespace, one failed feed,
one more good feed — the fetched list satisfies every conjunct. -/
theorem C10_fetch_properties_witness :
    1 ≤ 40
      ∧ ((fetch_headlines 40
            [some [some [ ' ', 'a', ' ' ], some [], some [ 'a' ], some [ 'b' ]],
             none,
             some [some [ 'c' ]]] []).length ≤ 40
          ∧ (fetch_headlines 40
              [some [some [ ' ', 'a', ' ' ], some [], some [ 'a' ], some [ 'b' ]],
               none,
               some [some [ 'c' ]]] []).Nodup
          ∧ (∀ s ∈ fetch_headlines 40
              [some [some [ ' ', 'a', ' ' ], some [], some [ 'a' ], some [ 'b' ]],
               none,
               some [some [ 'c' ]]] [], s ≠ [])
          ∧ (∃ cs : List (List (List Char)),
              cs.length = ([some [some [ ' ', 'a', ' ' ], some [], some [ 'a' ], some [ 'b' ]],
                 none,
                 some [some [ 'c' ]]] :
                  List (Option (List (Option (List Char))))).length
                ∧ fetch_headlines 40
                    [some [some [ ' ', 'a', ' ' ], some [], some [ 'a' ], some [ 'b' ]],
                     none,
                     some [some [ 'c' ]]] [] = cs.flatten
                ∧ ∀ (i : ℕ) (h1 : i < cs.length)
                    (h2 : i < ([some [some [ ' ', 'a', ' ' ], some [], some [ 'a' ], some [ 'b' ]],
                       none,
                       some [some [ 'c' ]]] :
                        List (Option (List (Option (List Char))))).length),
                    List.Sublist (cs.get ⟨i, h1⟩)
                      (feedTitles (([some [some [ ' ', 'a', ' ' ], some [], some [ 'a' ], some [ 'b' ]],
                         none,
                         some [some [ 'c' ]]] :
                          List (Option (List (Option (List Char))))).get ⟨i, h2⟩)))
          ∧ (∀ before after, fetch_headlines 40 (before ++ none :: after) []
                = fetch_headlines 40 (before ++ after) [])) :=
  ⟨by decide, C10_fetch_properties 40 (by decide)
    [some [some [ ' ', 'a', ' ' ], some [], some [ 'a' ], some [ 'b' ]],
     none,
     some [some [ 'c' ]]]⟩

end LiveNews
